import Mathlib

set_option maxRecDepth 100000

/-!
Verification of the Java design-pattern teaching tool (`src/app.py`).

The development embeds, as executable Lean functions, the text-processing
logic of the three UI flows of `app.py`:

* the generation gateway `generate_content` (lines 35-43), modelled as a
  function of the underlying capability outcome (`Except` failure detail
  success text), since the hosted model call itself is an external
  collaborator;
* the tab-2 refactor splitter (lines 146-163), built on a faithful model of
  the Python `str.split(sep)` routine;
* the tab-3 quiz pipeline (lines 178-255): Markdown-fence cleaning
  (`strip` and the two `replace` calls of line 209), a model of Python
  `json.loads` restricted to the JSON fragment the app can receive
  (objects, arrays, strings with common escapes, integers, booleans,
  null, strict whitespace, trailing-data check, duplicate keys last-wins),
  the session-state update, the five-key structure check of line 220
  (with Python `in` semantics per value type), and the explanation lookup
  of lines 242-252.

All functions are structurally recursive (list recursion or explicit fuel)
so that every definition evaluates inside the kernel.
-/

namespace JavaAiTeacher

/-! ## JSON values (the result type of Python `json.loads`) -/

inductive Json where
  | null
  | bool (b : Bool)
  | num (n : Int)
  | str (s : String)
  | arr (elems : List Json)
  | obj (members : List (String × Json))

/-! ## Character classes

`isJsonWs` is the whitespace the Python `json` decoder skips between
tokens (exactly space, tab, newline, carriage return).  `isPyWs` is the
ASCII part of what `str.strip()` removes (additionally vertical tab and
form feed). -/

def isJsonWs (c : Char) : Bool :=
  c == ' ' || c == '\t' || c == '\n' || c == '\r'

def isPyWs (c : Char) : Bool :=
  c == ' ' || c == '\t' || c == '\n' || c == '\r' || c == '\x0b' || c == '\x0c'

def skipWs (s : List Char) : List Char := s.dropWhile isJsonWs

/-! ## Faithful model of `json.loads`

Python's decoder (strict mode, as used by `app.py`) accepts objects,
arrays, strings, numbers, `true`, `false`, `null`; requires the whole
input to be consumed apart from trailing whitespace; rejects raw control
characters inside strings; rejects leading zeros; on duplicate object keys
keeps the last value at the first key position.  Floats, `\u` escapes and
`NaN`/`Infinity` are outside the model (the model rejects them). -/

def escChar : Char → Option Char
  | '"' => some '"'
  | '\\' => some '\\'
  | '/' => some '/'
  | 'b' => some (Char.ofNat 8)
  | 'f' => some (Char.ofNat 12)
  | 'n' => some '\n'
  | 'r' => some '\r'
  | 't' => some '\t'
  | _ => none

/-- Parse the body of a JSON string after the opening quote; returns the
decoded characters and the input after the closing quote. -/
def parseStringBody : List Char → Option (List Char × List Char)
  | [] => none
  | c :: r =>
    if c = '"' then some ([], r)
    else if c = '\\' then
      match r with
      | [] => none
      | e :: r2 =>
        match escChar e with
        | none => none
        | some ec =>
          match parseStringBody r2 with
          | none => none
          | some (cs, r3) => some (ec :: cs, r3)
    else if c.toNat < 32 then none
    else
      match parseStringBody r with
      | none => none
      | some (cs, r3) => some (c :: cs, r3)

def digitsToNat (acc : Nat) : List Char → Nat
  | [] => acc
  | d :: ds => digitsToNat (acc * 10 + (d.toNat - 48)) ds

/-- Parse a nonnegative integer literal (digits), rejecting leading zeros
and any float/exponent continuation, as Python `json.loads` does for the
integer grammar. -/
def parseDigits : List Char → Option (Nat × List Char)
  | [] => none
  | c :: r =>
    if c.isDigit then
      let ds := r.takeWhile Char.isDigit
      let rest := r.dropWhile Char.isDigit
      if c == '0' && !ds.isEmpty then none
      else
        match rest with
        | [] => some (digitsToNat (c.toNat - 48) ds, rest)
        | d :: _ =>
          if d = '.' || d = 'e' || d = 'E' then none
          else some (digitsToNat (c.toNat - 48) ds, rest)
    else none

def parseNumber (s : List Char) : Option (Json × List Char) :=
  match s with
  | [] => none
  | c :: r =>
    if c = '-' then
      match parseDigits r with
      | some (n, rest) => some (.num (-(n : Int)), rest)
      | none => none
    else
      match parseDigits (c :: r) with
      | some (n, rest) => some (.num (n : Int), rest)
      | none => none

/-- Consume the given keyword characters, then return the value. -/
def expectWord (w : List Char) (v : Json) (s : List Char) : Option (Json × List Char) :=
  match w, s with
  | [], _ => some (v, s)
  | _ :: _, [] => none
  | c :: cs, d :: ds => if c == d then expectWord cs v ds else none

/-- CPython dict insertion: an existing key keeps its position and gets the
new value, a new key is appended. -/
def objInsert (ms : List (String × Json)) (k : String) (v : Json) :
    List (String × Json) :=
  if ms.any (fun p => p.1 == k) then
    ms.map (fun p => if p.1 == k then (k, v) else p)
  else ms ++ [(k, v)]

/-- Result of a fuel-indexed parsing step: success with remaining input,
syntax failure, or fuel exhaustion (which the top-level wrapper never hits
on the fuel it supplies). -/
inductive PRes where
  | ok (v : Json) (rest : List Char)
  | fail
  | out

mutual

def parseVal : Nat → List Char → PRes
  | 0, _ => .out
  | fuel + 1, s =>
    match skipWs s with
    | [] => .fail
    | c :: r =>
      if c = 'n' then
        match expectWord ['u', 'l', 'l'] .null r with
        | some (v, rest) => .ok v rest
        | none => .fail
      else if c = 't' then
        match expectWord ['r', 'u', 'e'] (.bool true) r with
        | some (v, rest) => .ok v rest
        | none => .fail
      else if c = 'f' then
        match expectWord ['a', 'l', 's', 'e'] (.bool false) r with
        | some (v, rest) => .ok v rest
        | none => .fail
      else if c = '"' then
        match parseStringBody r with
        | some (cs, rest) => .ok (.str (String.mk cs)) rest
        | none => .fail
      else if c = '[' then
        match skipWs r with
        | [] => parseArrLoop fuel [] r
        | d :: rest =>
          if d = ']' then .ok (.arr []) rest else parseArrLoop fuel [] r
      else if c = '{' then
        match skipWs r with
        | [] => parseObjLoop fuel [] r
        | d :: rest =>
          if d = '}' then .ok (.obj []) rest else parseObjLoop fuel [] r
      else
        match parseNumber (c :: r) with
        | some (v, rest) => .ok v rest
        | none => .fail

def parseArrLoop : Nat → List Json → List Char → PRes
  | 0, _, _ => .out
  | fuel + 1, acc, s =>
    match parseVal fuel s with
    | .ok v r =>
      match skipWs r with
      | [] => .fail
      | d :: r2 =>
        if d = ',' then parseArrLoop fuel (acc ++ [v]) r2
        else if d = ']' then .ok (.arr (acc ++ [v])) r2
        else .fail
    | .fail => .fail
    | .out => .out

def parseObjLoop : Nat → List (String × Json) → List Char → PRes
  | 0, _, _ => .out
  | fuel + 1, acc, s =>
    match skipWs s with
    | [] => .fail
    | c :: r =>
      if c = '"' then
        match parseStringBody r with
        | none => .fail
        | some (kcs, r2) =>
          match skipWs r2 with
          | [] => .fail
          | d :: r3 =>
            if d = ':' then
              match parseVal fuel r3 with
              | .ok v r4 =>
                match skipWs r4 with
                | [] => .fail
                | d2 :: r5 =>
                  if d2 = ',' then
                    parseObjLoop fuel (objInsert acc (String.mk kcs) v) r5
                  else if d2 = '}' then
                    .ok (.obj (objInsert acc (String.mk kcs) v)) r5
                  else .fail
              | .fail => .fail
              | .out => .out
            else .fail
      else .fail

end

/-- Count of non-whitespace characters; the parser consumes at least one
of them for every two units of fuel, so the fuel below is ample. -/
def nonWsCount (s : List Char) : Nat :=
  (s.filter (fun c => !isJsonWs c)).length

def jsonFuel (s : List Char) : Nat := 2 * nonWsCount s + 8

/-- Model of Python `json.loads` on a character list: parse one value and
require only whitespace to remain.  `none` models `json.JSONDecodeError`. -/
def json_loads_list (s : List Char) : Option Json :=
  match parseVal (jsonFuel s) s with
  | .ok v rest => if (skipWs rest).isEmpty then some v else none
  | _ => none

def json_loads (s : String) : Option Json := json_loads_list s.data

/-! ## Python string routines used by `app.py` -/

/-- Model of `str.strip()` (ASCII whitespace). -/
def pyStrip (s : List Char) : List Char :=
  ((s.dropWhile isPyWs).reverse.dropWhile isPyWs).reverse

/-- Boolean test that `p` is a leading segment of `s`. -/
def isStartOf (p s : List Char) : Bool :=
  match p, s with
  | [], _ => true
  | _ :: _, [] => false
  | a :: ps, b :: ss => a == b && isStartOf ps ss

/-- Python substring containment, `needle in hay` for strings. -/
def listContains (n : List Char) : List Char → Bool
  | [] => n.isEmpty
  | c :: cs => isStartOf n (c :: cs) || listContains n cs

/-- Model of `str.replace(pat, repl)` (all non-overlapping occurrences,
scanned left to right), fuel-indexed so that it evaluates in the kernel.
`pat` is never empty in this development. -/
def pyReplaceAux (pat repl : List Char) : Nat → List Char → List Char
  | 0, s => s
  | fuel + 1, s =>
    match s with
    | [] => []
    | c :: cs =>
      if isStartOf pat s then repl ++ pyReplaceAux pat repl fuel (s.drop pat.length)
      else c :: pyReplaceAux pat repl fuel cs

def pyReplace (pat repl s : List Char) : List Char :=
  pyReplaceAux pat repl s.length s

def fenceJson : List Char := "```json".data

def fenceBare : List Char := "```".data

/-- Line 209 of `app.py`:
`response_text.strip().replace("```json", "").replace("```", "")`. -/
def clean_quiz_text (s : String) : List Char :=
  pyReplace fenceBare [] (pyReplace fenceJson [] (pyStrip s.data))

/-! ## Generation gateway (lines 35-43)

The hosted model call is an external capability: its outcome is either a
returned text or a raised exception detail.  `generate_content` catches
every exception, shows the fixed error banner with the detail embedded,
and returns `None`; on success it returns `response.text` unmodified.
The second component is the list of error banners displayed. -/

def genFailHead : String :=
  "AI生成失败，请稍后重试。可能是API调用频率限制或内容安全策略导致。错误信息: "

def generate_content (cap : Except String String) : Option String × List String :=
  match cap with
  | .ok t => (some t, [])
  | .error e => (none, [genFailHead ++ e])

/-! ## Tab 1: scenario flow (lines 77-98) -/

/-- Outcome of the tab-1 button handler: the Markdown bodies rendered.
`if response_text:` renders only a truthy (non-empty, non-`None`) text. -/
def tab1_handler (cap : Except String String) : List String :=
  match (generate_content cap).1 with
  | none => []
  | some t => if t = "" then [] else [t]

/-! ## Tab 2: refactor flow (lines 112-167) -/

def refactorMarkerStr : String := "### 优化解读"

def refactorMarker : List Char := refactorMarkerStr.data

/-- First position at which `sep` starts in `s`. -/
def findOccur (sep : List Char) : List Char → Option Nat
  | [] => none
  | c :: cs =>
    if isStartOf sep (c :: cs) then some 0
    else
      match findOccur sep cs with
      | none => none
      | some i => some (i + 1)

/-- Number of positions of `s` at which `sep` starts (overlaps included). -/
def countOccur (sep : List Char) : List Char → Nat
  | [] => 0
  | c :: cs => (if isStartOf sep (c :: cs) then 1 else 0) + countOccur sep cs

/-- Model of Python `str.split(sep)` for non-empty `sep`: repeatedly cut at
the first occurrence.  Fuel-indexed for kernel evaluation; the wrapper
supplies ample fuel. -/
def pySplitAux (sep : List Char) : Nat → List Char → List (List Char)
  | 0, s => [s]
  | fuel + 1, s =>
    match findOccur sep s with
    | none => [s]
    | some i => s.take i :: pySplitAux sep fuel (s.drop (i + sep.length))

def pySplit (sep s : List Char) : List (List Char) :=
  pySplitAux sep (s.length + 1) s

/-- Lines 146-163: `parts = response_text.split("### 优化解读")`; exactly two
parts render as (optimized code, marker-prefixed explanation); any other
shape shows the format error together with the raw text. -/
def splitRefactorResponse (text : String) : Except String (String × String) :=
  match pySplit refactorMarker text.data with
  | [a, b] => .ok (String.mk a, String.mk (refactorMarker ++ b))
  | _ => .error text

inductive Tab2Result where
  | blankWarning
  | nothing
  | rendered (original optimized explanation : String)
  | parseErrorShown (raw : String)

/-- The tab-2 button handler (line 114 onward), as a function of the pasted
code and the capability outcome. -/
def tab2_handler (original_code : String) (cap : Except String String) :
    Tab2Result :=
  if pyStrip original_code.data = [] then .blankWarning
  else
    match (generate_content cap).1 with
    | none => .nothing
    | some t =>
      if t = "" then .nothing
      else
        match splitRefactorResponse t with
        | .ok (a, b) => .rendered original_code a b
        | .error raw => .parseErrorShown raw

/-! ## Tab 3: quiz flow (lines 175-255) -/

/-- Lines 207-214: the value stored in `st.session_state.quiz_data` by the
decode attempt (`None` exactly on `json.JSONDecodeError`). -/
def quiz_decode_step (t : String) : Option Json :=
  json_loads_list (clean_quiz_text t)

/-- The start/next button handler (lines 178-214).  Line 179 resets the
session record to `None` unconditionally before generating, so the
resulting session state does not depend on the previous record.  Every
failure path is caught, so the handler is total. -/
def tab3_start_next (cap : Except String String) : Option Json :=
  match (generate_content cap).1 with
  | none => none
  | some t => if t = "" then none else quiz_decode_step t

/-- Python truthiness of a decoded JSON value (`if st.session_state.quiz_data:`). -/
def jsonTruthy : Json → Bool
  | .null => false
  | .bool b => b
  | .num n => n != 0
  | .str s => !s.data.isEmpty
  | .arr xs => !xs.isEmpty
  | .obj ms => !ms.isEmpty

/-- Python `k in q` for a decoded JSON value `q`: key membership on dicts,
substring on strings, element equality on lists, `TypeError` otherwise. -/
def pyContains (k : String) : Json → Except String Bool
  | .obj ms => .ok (ms.any (fun p => p.1 == k))
  | .str s => .ok (listContains k.data s.data)
  | .arr xs =>
    .ok (xs.any (fun x => match x with | .str s => s == k | _ => false))
  | _ => .error "TypeError: argument is not iterable"

/-- Line 220: `all(k in q for k in [...])`, with the lazy short-circuit of
`all` (a raised `TypeError` propagates, a `False` stops the scan). -/
def pyAllKeysIn : List String → Json → Except String Bool
  | [], _ => .ok true
  | k :: ks, q =>
    match pyContains k q with
    | .error e => .error e
    | .ok false => .ok false
    | .ok true => pyAllKeysIn ks q

def requiredKeys : List String :=
  ["scene", "question", "options", "answer", "explanation"]

/-- Python dict read on parsed members (keys are unique after `objInsert`). -/
def pyObjGet (ms : List (String × Json)) (k : String) : Option Json :=
  (ms.find? (fun p => p.1 == k)).map (·.2)

/-- What the body after line 216 does with the stored quiz value before any
user selection: nothing for a falsy value, the incomplete-structure error
(line 255) when a required key is missing, the question/options rendering
when the check passes and the subscripts succeed, and an uncaught Python
fault otherwise. -/
inductive RenderResult where
  | nothing
  | rendered (ms : List (String × Json))
  | incompleteError
  | crash (msg : String)

def tab3_render (qd : Option Json) : RenderResult :=
  match qd with
  | none => .nothing
  | some q =>
    if jsonTruthy q then
      match pyAllKeysIn requiredKeys q with
      | .error e => .crash e
      | .ok false => .incompleteError
      | .ok true =>
        match q with
        | .obj ms =>
          match pyObjGet ms "options" with
          | some (.obj _) => .rendered ms
          | some _ => .crash "AttributeError: items"
          | none => .crash "KeyError: options"
        | _ => .crash "TypeError: not subscriptable"
    else .nothing

/-! ## Explanation lookup (lines 242-252) -/

def pyUpper (s : String) : String := String.mk (s.data.map Char.toUpper)

def pyLower (s : String) : String := String.mk (s.data.map Char.toLower)

def pyObjMem (ms : List (String × Json)) (k : String) : Bool :=
  ms.any (fun p => p.1 == k)

/-- For a wrong option key `k`: first try `incorrect_<k upper>`, then
`incorrect_<k lower>`; `none` when neither key is present. -/
def explanationLookup (expl : List (String × Json)) (k : String) : Option Json :=
  let up := "incorrect_" ++ pyUpper k
  let lo := "incorrect_" ++ pyLower k
  if pyObjMem expl up then pyObjGet expl up
  else if pyObjMem expl lo then pyObjGet expl lo
  else none

/-- The explanation blocks displayed by the loop of lines 242-252, in
options order: one `(key, shown value)` entry per wrong option whose
lookup succeeds; wrong options with no entry are silently omitted. -/
def wrongOptionBlocks (opts : List (String × Json)) (answer : String)
    (expl : List (String × Json)) : List (String × Json) :=
  opts.filterMap (fun p =>
    if p.1 = answer then none
    else (explanationLookup expl p.1).map (fun v => (p.1, v)))

/-! ## Auxiliary notions for the code-fence wrapping claim -/

/-- Wrap a body in the Markdown code-fence markers of the spec scenario. -/
def fenceWrap (t : String) : String := "```json\n" ++ t ++ "\n```"

/-- The whitespace prefix removed by `str.strip()`. -/
def stripPre (s : List Char) : List Char := s.takeWhile isPyWs

/-- The whitespace suffix removed by `str.strip()`. -/
def stripSuf (s : List Char) : List Char :=
  ((s.dropWhile isPyWs).reverse.takeWhile isPyWs).reverse

/-- Extend the remaining input of a parse outcome. -/
def presApp (w : List Char) : PRes → PRes
  | .ok v rest => .ok v (rest ++ w)
  | .fail => .fail
  | .out => .out

/-! ## Concrete model responses used by the scenarios

Braces inside string literals are written with their character codes. -/

/-- A previously decoded quiz record, standing for the session state before
a start/next action. -/
def c1PriorRecord : Json := .obj [("scene", .str "old scene")]

/-- A well-formed quiz response (answer "B"; upper-case explanation key for
option A, lower-case for option C). -/
def quizGoodText : String :=
  "\x7b\"scene\": \"s1\", \"question\": \"q1\", \"options\": \x7b\"A\": \"x\", \"B\": \"y\", \"C\": \"z\"\x7d, \"answer\": \"B\", \"explanation\": \x7b\"correct\": \"cb\", \"incorrect_A\": \"ea\", \"incorrect_c\": \"ec\"\x7d\x7d"

def quizGoodMembers : List (String × Json) :=
  [("scene", .str "s1"), ("question", .str "q1"),
   ("options", .obj [("A", .str "x"), ("B", .str "y"), ("C", .str "z")]),
   ("answer", .str "B"),
   ("explanation", .obj [("correct", .str "cb"), ("incorrect_A", .str "ea"),
     ("incorrect_c", .str "ec")])]

/-- A quiz response with all five keys but an answer key absent from the
options mapping. -/
def c2Text : String :=
  "\x7b\"scene\": \"s\", \"question\": \"q\", \"options\": \x7b\"A\": \"x\", \"B\": \"y\", \"C\": \"z\"\x7d, \"answer\": \"D\", \"explanation\": \x7b\"correct\": \"c\"\x7d\x7d"

def c2Options : List (String × Json) :=
  [("A", .str "x"), ("B", .str "y"), ("C", .str "z")]

def c2Members : List (String × Json) :=
  [("scene", .str "s"), ("question", .str "q"), ("options", .obj c2Options),
   ("answer", .str "D"), ("explanation", .obj [("correct", .str "c")])]

/-- A quiz response that is valid JSON but lacks the `explanation` key. -/
def c3Text : String :=
  "\x7b\"scene\": \"s\", \"question\": \"q\", \"options\": \x7b\"A\": \"a\", \"B\": \"b\", \"C\": \"c\"\x7d, \"answer\": \"A\"\x7d"

def c3Members : List (String × Json) :=
  [("scene", .str "s"), ("question", .str "q"),
   ("options", .obj [("A", .str "a"), ("B", .str "b"), ("C", .str "c")]),
   ("answer", .str "A")]

/-- A quiz response whose `scene` string value contains a code fence. -/
def c9Text : String :=
  "\x7b\"scene\": \"Use ``` here\", \"question\": \"q\", \"options\": \x7b\"A\": \"a\"\x7d, \"answer\": \"A\", \"explanation\": \x7b\"correct\": \"ok\"\x7d\x7d"

def c9Members : List (String × Json) :=
  [("scene", .str "Use  here"), ("question", .str "q"),
   ("options", .obj [("A", .str "a")]),
   ("answer", .str "A"), ("explanation", .obj [("correct", .str "ok")])]

/-- A separator is self-overlap free when no proper nonempty suffix of it
starts the separator itself; two occurrences of such a separator can never
overlap.  The refactor marker has this property (checked by `decide`). -/
def selfOverlapFree (sep : List Char) : Bool :=
  (List.range sep.length).all
    (fun d => d == 0 || !(isStartOf (sep.drop d) sep))

/-! # Theorems -/

/-! ## Properties of the `str.split` model -/

theorem isStartOf_iff (p s : List Char) :
    isStartOf p s = true ↔ ∃ t, s = p ++ t := by
  induction p generalizing s with
  | nil => simp [isStartOf]
  | cons a ps ih =>
    cases s with
    | nil => simp [isStartOf]
    | cons b ss =>
      simp only [isStartOf, Bool.and_eq_true, beq_iff_eq, ih, List.cons_append]
      constructor
      · rintro ⟨rfl, t, rfl⟩
        exact ⟨t, rfl⟩
      · rintro ⟨t, ht⟩
        injection ht with h1 h2
        exact ⟨h1.symm, t, h2⟩

theorem isStartOf_self_append (p t : List Char) :
    isStartOf p (p ++ t) = true :=
  (isStartOf_iff p (p ++ t)).2 ⟨t, rfl⟩

theorem findOccur_isStart (sep : List Char) :
    ∀ s i, findOccur sep s = some i → isStartOf sep (s.drop i) = true := by
  intro s
  induction s with
  | nil => intro i h; exact absurd h (by simp [findOccur])
  | cons c cs ih =>
    intro i h
    by_cases hs : isStartOf sep (c :: cs) = true
    · simp only [findOccur, hs, if_true, Option.some.injEq] at h
      subst h
      simpa using hs
    · rw [Bool.not_eq_true] at hs
      simp only [findOccur, hs, Bool.false_eq_true, if_false] at h
      cases hc : findOccur sep cs with
      | none => rw [hc] at h; exact absurd h (by simp)
      | some j =>
        rw [hc] at h
        simp only [Option.some.injEq] at h
        subst h
        simpa using ih j hc

theorem findOccur_min (sep : List Char) :
    ∀ s i, findOccur sep s = some i →
      ∀ j, j < i → isStartOf sep (s.drop j) = false := by
  intro s
  induction s with
  | nil => intro i h; exact absurd h (by simp [findOccur])
  | cons c cs ih =>
    intro i h j hj
    by_cases hs : isStartOf sep (c :: cs) = true
    · simp only [findOccur, hs, if_true, Option.some.injEq] at h
      omega
    · rw [Bool.not_eq_true] at hs
      simp only [findOccur, hs, Bool.false_eq_true, if_false] at h
      cases hc : findOccur sep cs with
      | none => rw [hc] at h; exact absurd h (by simp)
      | some i2 =>
        rw [hc] at h
        simp only [Option.some.injEq] at h
        subst h
        cases j with
        | zero => simpa using hs
        | succ j2 => simpa using ih i2 hc j2 (by omega)

theorem countOccur_eq_zero_iff (sep s : List Char) :
    countOccur sep s = 0 ↔ findOccur sep s = none := by
  induction s with
  | nil => simp [countOccur, findOccur]
  | cons c cs ih =>
    by_cases hs : isStartOf sep (c :: cs) = true
    · simp [countOccur, findOccur, hs]
    · simp only [Bool.not_eq_true] at hs
      simp only [countOccur, findOccur, hs, if_false, Bool.false_eq_true,
        Nat.zero_add]
      rw [ih]
      cases hc : findOccur sep cs with
      | none => simp [hc]
      | some j => simp [hc]

theorem countOccur_drop (sep s : List Char) :
    ∀ k, (∀ j, j < k → isStartOf sep (s.drop j) = false) →
      countOccur sep s = countOccur sep (s.drop k) := by
  intro k
  induction k with
  | zero => intro _; simp
  | succ k ih =>
    intro hno
    rw [ih (fun j hj => hno j (by omega))]
    have hdd : s.drop (k + 1) = (s.drop k).drop 1 := (List.drop_drop 1 k s).symm
    cases hdk : s.drop k with
    | nil => rw [hdd, hdk]; rfl
    | cons c cs =>
      have hk : isStartOf sep (c :: cs) = false := hdk ▸ hno k (Nat.lt_succ_self k)
      rw [hdd, hdk]
      simp [countOccur, hk]

theorem selfOverlapFree_spec (sep : List Char) (hof : selfOverlapFree sep = true)
    (d : Nat) (hdlen : d < sep.length) (hd0 : 0 < d) :
    isStartOf (sep.drop d) sep = false := by
  rw [selfOverlapFree, List.all_eq_true] at hof
  have := hof d (List.mem_range.2 hdlen)
  simp only [Bool.or_eq_true, beq_iff_eq, Bool.not_eq_true'] at this
  rcases this with h0 | hiso
  · omega
  · exact hiso

theorem isStartOf_straddle_false (sep : List Char) (hof : selfOverlapFree sep = true)
    (d : Nat) (hdlen : d < sep.length) (hd0 : 0 < d) (t : List Char) :
    isStartOf sep (sep.drop d ++ t) = false := by
  by_contra hcon
  rw [Bool.not_eq_false] at hcon
  obtain ⟨u, hu⟩ := (isStartOf_iff _ _).1 hcon
  have hdl : (sep.drop d).length = sep.length - d := List.length_drop d sep
  have htake := congrArg (List.take (sep.length - d)) hu
  rw [List.take_append_of_le_length (by rw [hdl]),
      List.take_append_of_le_length (Nat.sub_le _ _),
      List.take_of_length_le (le_of_eq hdl)] at htake
  have hstart : isStartOf (sep.drop d) sep = true := by
    rw [isStartOf_iff]
    refine ⟨sep.drop (sep.length - d), ?_⟩
    rw [htake, List.take_append_drop]
  exact absurd hstart (by simp [selfOverlapFree_spec sep hof d hdlen hd0])

theorem countOccur_first (sep s : List Char) (hne : sep ≠ [])
    (hof : selfOverlapFree sep = true) (i : Nat)
    (hfind : findOccur sep s = some i) :
    countOccur sep s = countOccur sep (s.drop (i + sep.length)) + 1 := by
  have hstart := findOccur_isStart sep s i hfind
  have hmin := findOccur_min sep s i hfind
  have hA : countOccur sep s = countOccur sep (s.drop i) :=
    countOccur_drop sep s i hmin
  obtain ⟨t, ht⟩ := (isStartOf_iff _ _).1 hstart
  have htR : t = s.drop (i + sep.length) := by
    have hdd : (s.drop i).drop sep.length = s.drop (i + sep.length) :=
      List.drop_drop _ _ _
    rw [ht, List.drop_left] at hdd
    rw [hdd]
  obtain ⟨c, sep', rfl⟩ : ∃ c sep2, sep = c :: sep2 := by
    cases sep with
    | nil => exact absurd rfl hne
    | cons c cs => exact ⟨c, cs, rfl⟩
  have hC : countOccur (c :: sep') (s.drop i) =
      1 + countOccur (c :: sep') (sep' ++ t) := by
    rw [ht]
    have hself : isStartOf (c :: sep') (c :: (sep' ++ t)) = true := by
      simpa using isStartOf_self_append (c :: sep') t
    show countOccur _ (c :: (sep' ++ t)) = _
    simp [countOccur, hself]
  have hD : countOccur (c :: sep') (sep' ++ t) = countOccur (c :: sep') t := by
    have hstep : ∀ j, j < sep'.length →
        isStartOf (c :: sep') ((sep' ++ t).drop j) = false := by
      intro j hj
      have hform : (sep' ++ t).drop j = ((c :: sep').drop (j + 1)) ++ t := by
        rw [List.drop_append_of_le_length (le_of_lt hj)]
        rfl
      rw [hform]
      exact isStartOf_straddle_false _ hof (j + 1)
        (by simpa [Nat.succ_lt_succ_iff] using hj) (Nat.succ_pos j) t
    have hcd := countOccur_drop (c :: sep') (sep' ++ t) sep'.length hstep
    rwa [List.drop_left] at hcd
  rw [hA, hC, hD, htR, Nat.add_comm]

theorem pySplitAux_ne_nil (sep : List Char) (fuel : Nat) (s : List Char) :
    pySplitAux sep fuel s ≠ [] := by
  cases fuel with
  | zero => simp [pySplitAux]
  | succ f =>
    cases h : findOccur sep s with
    | none => simp [pySplitAux, h]
    | some i => simp [pySplitAux, h]

/-- With exactly one occurrence of the separator, the split yields the
prefix before it and the suffix after it. -/
theorem pySplit_pair (sep s : List Char) (hne : sep ≠ [])
    (hof : selfOverlapFree sep = true) (h1 : countOccur sep s = 1) :
    ∃ i, findOccur sep s = some i ∧
      pySplit sep s = [s.take i, s.drop (i + sep.length)] ∧
      s = s.take i ++ sep ++ s.drop (i + sep.length) := by
  have hfind : findOccur sep s ≠ none := by
    intro h
    rw [← countOccur_eq_zero_iff] at h
    omega
  obtain ⟨i, hi⟩ := Option.ne_none_iff_exists'.1 hfind
  have hrest0 : countOccur sep (s.drop (i + sep.length)) = 0 := by
    have := countOccur_first sep s hne hof i hi
    omega
  have hrestnone := (countOccur_eq_zero_iff sep _).1 hrest0
  have hdecomp : s = s.take i ++ sep ++ s.drop (i + sep.length) := by
    obtain ⟨t, ht⟩ := (isStartOf_iff _ _).1 (findOccur_isStart sep s i hi)
    have hdd : (s.drop i).drop sep.length = s.drop (i + sep.length) :=
      List.drop_drop _ _ _
    rw [ht, List.drop_left] at hdd
    calc s = s.take i ++ s.drop i := (List.take_append_drop i s).symm
    _ = s.take i ++ sep ++ s.drop (i + sep.length) := by
        rw [ht, hdd, List.append_assoc]
  refine ⟨i, hi, ?_, hdecomp⟩
  have hrest : pySplitAux sep s.length (s.drop (i + sep.length)) =
      [s.drop (i + sep.length)] := by
    cases hl : s.length with
    | zero => rfl
    | succ n => simp [pySplitAux, hrestnone]
  show pySplitAux sep (s.length + 1) s = _
  simp [pySplitAux, hi, hrest]

/-- With at least two occurrences the split has at least three parts. -/
theorem pySplit_three (sep s : List Char) (hne : sep ≠ [])
    (hof : selfOverlapFree sep = true) (h2 : 2 ≤ countOccur sep s) :
    ∃ a b c t, pySplit sep s = a :: b :: c :: t := by
  have hfind : findOccur sep s ≠ none := by
    intro h
    rw [← countOccur_eq_zero_iff] at h
    omega
  obtain ⟨i, hi⟩ := Option.ne_none_iff_exists'.1 hfind
  have hrest1 : 1 ≤ countOccur sep (s.drop (i + sep.length)) := by
    have := countOccur_first sep s hne hof i hi
    omega
  have hfind2 : findOccur sep (s.drop (i + sep.length)) ≠ none := by
    intro h
    rw [← countOccur_eq_zero_iff] at h
    omega
  obtain ⟨i2, hi2⟩ := Option.ne_none_iff_exists'.1 hfind2
  have hsne : s ≠ [] := by
    intro h
    subst h
    exact absurd hi (by simp [findOccur])
  obtain ⟨n, hn⟩ : ∃ n, s.length = n + 1 := by
    cases hl : s.length with
    | zero => exact absurd (List.length_eq_zero.1 hl) hsne
    | succ n => exact ⟨n, rfl⟩
  have h1 : pySplit sep s =
      s.take i :: pySplitAux sep s.length (s.drop (i + sep.length)) := by
    show pySplitAux sep (s.length + 1) s = _
    simp [pySplitAux, hi]
  have h2b : pySplitAux sep s.length (s.drop (i + sep.length)) =
      (s.drop (i + sep.length)).take i2 ::
        pySplitAux sep n ((s.drop (i + sep.length)).drop (i2 + sep.length)) := by
    rw [hn]
    simp [pySplitAux, hi2]
  cases hrec : pySplitAux sep n ((s.drop (i + sep.length)).drop (i2 + sep.length)) with
  | nil => exact absurd hrec (pySplitAux_ne_nil sep _ _)
  | cons c0 t0 =>
    exact ⟨s.take i, (s.drop (i + sep.length)).take i2, c0, t0, by
      rw [h1, h2b, hrec]⟩

theorem string_mk_append (a b : List Char) :
    String.mk (a ++ b) = String.mk a ++ String.mk b := rfl

theorem string_mk_data (s : String) : String.mk s.data = s := rfl

theorem string_append_mk (s : String) (b : List Char) :
    s ++ String.mk b = String.mk (s.data ++ b) := by
  cases s
  rfl

theorem string_mk_append_str (a : List Char) (s : String) :
    String.mk a ++ s = String.mk (a ++ s.data) := by
  cases s
  rfl

/-- Claim C4 (confirmed): if the refactor marker occurs exactly once in the
response text, the split succeeds, the explanation region begins with the
marker, and optimized-code region ++ marker ++ remainder reproduces the
original text character for character. -/
theorem C4_split_reconstruction (text : String)
    (h : countOccur refactorMarker text.data = 1) :
    ∃ code rest : String,
      splitRefactorResponse text = .ok (code, refactorMarkerStr ++ rest) ∧
      code ++ refactorMarkerStr ++ rest = text := by
  obtain ⟨i, _, hsplit, hdecomp⟩ := pySplit_pair refactorMarker text.data
    (by decide) (by decide) h
  refine ⟨String.mk (text.data.take i),
    String.mk (text.data.drop (i + refactorMarker.length)), ?_, ?_⟩
  · unfold splitRefactorResponse
    rw [hsplit, string_append_mk]
    rfl
  · have hstr : String.mk (text.data.take i) ++ refactorMarkerStr ++
        String.mk (text.data.drop (i + refactorMarker.length)) =
        String.mk (text.data.take i ++ refactorMarker ++
          text.data.drop (i + refactorMarker.length)) := by
      rw [string_mk_append_str]
      rfl
    rw [hstr, ← hdecomp]

/-- Witness for `C4_split_reconstruction` on a response with one marker. -/
theorem C4_split_reconstruction_witness :
    countOccur refactorMarker ("code\n### 优化解读\nwhy").data = 1 ∧
    ∃ code rest : String,
      splitRefactorResponse "code\n### 优化解读\nwhy" = .ok (code, refactorMarkerStr ++ rest) ∧
      code ++ refactorMarkerStr ++ rest = "code\n### 优化解读\nwhy" :=
  ⟨by decide, C4_split_reconstruction "code\n### 优化解读\nwhy" (by decide)⟩

/-- Claim C5 (confirmed): if the refactor marker occurs zero times or at
least twice, the split returns the format error carrying the raw text (the
handler is a total function, so no fault escapes). -/
theorem C5_split_error (text : String)
    (h : countOccur refactorMarker text.data = 0 ∨
      2 ≤ countOccur refactorMarker text.data) :
    splitRefactorResponse text = .error text := by
  cases h with
  | inl h0 =>
    have hnone := (countOccur_eq_zero_iff refactorMarker text.data).1 h0
    unfold splitRefactorResponse
    rw [show pySplit refactorMarker text.data = [text.data] by
      show pySplitAux refactorMarker (text.data.length + 1) text.data = _
      simp [pySplitAux, hnone]]
  | inr h2 =>
    obtain ⟨a, b, c, t, hsplit⟩ := pySplit_three refactorMarker text.data
      (by decide) (by decide) h2
    unfold splitRefactorResponse
    rw [hsplit]

/-! ## Properties of the `str.replace` model -/

theorem pyReplaceAux_fuel_irrel (pat repl : List Char) (hpat : pat ≠ []) :
    ∀ f g s, s.length ≤ f → s.length ≤ g →
      pyReplaceAux pat repl f s = pyReplaceAux pat repl g s := by
  intro f
  induction f with
  | zero =>
    intro g s hf hg
    have hs : s = [] := List.eq_nil_of_length_eq_zero (Nat.le_zero.1 hf)
    subst hs
    cases g <;> rfl
  | succ f ih =>
    intro g s hf hg
    cases s with
    | nil => cases g <;> rfl
    | cons c cs =>
      cases g with
      | zero => simp at hg
      | succ g2 =>
        have hplen : 1 ≤ pat.length := by
          cases pat with
          | nil => exact absurd rfl hpat
          | cons _ _ => simp
        have hlcs : cs.length ≤ f := by
          simp only [List.length_cons] at hf
          omega
        have hlcs2 : cs.length ≤ g2 := by
          simp only [List.length_cons] at hg
          omega
        have hldrop : ((c :: cs).drop pat.length).length ≤ f := by
          simp only [List.length_drop, List.length_cons]
          omega
        have hldrop2 : ((c :: cs).drop pat.length).length ≤ g2 := by
          simp only [List.length_drop, List.length_cons]
          omega
        simp only [pyReplaceAux]
        by_cases hs : isStartOf pat (c :: cs) = true
        · rw [if_pos hs, if_pos hs]
          rw [ih g2 _ hldrop hldrop2]
        · rw [Bool.not_eq_true] at hs
          rw [hs]
          simp only [Bool.false_eq_true, if_false]
          rw [ih g2 cs hlcs hlcs2]

theorem pyReplace_cons_no_match (pat repl : List Char) (c : Char) (cs : List Char)
    (h : isStartOf pat (c :: cs) = false) :
    pyReplace pat repl (c :: cs) = c :: pyReplace pat repl cs := by
  show pyReplaceAux pat repl (cs.length + 1) (c :: cs) = _
  simp only [pyReplaceAux, h, Bool.false_eq_true, if_false]
  rfl

theorem pyReplace_head_match (pat repl : List Char) (hpat : pat ≠ [])
    (s : List Char) (h : isStartOf pat s = true) :
    pyReplace pat repl s = repl ++ pyReplace pat repl (s.drop pat.length) := by
  cases s with
  | nil =>
    cases pat with
    | nil => exact absurd rfl hpat
    | cons p ps => exact absurd h (by simp [isStartOf])
  | cons c cs =>
    have hplen : 1 ≤ pat.length := by
      cases pat with
      | nil => exact absurd rfl hpat
      | cons _ _ => simp
    show pyReplaceAux pat repl (cs.length + 1) (c :: cs) = _
    simp only [pyReplaceAux, h, if_true]
    rw [pyReplaceAux_fuel_irrel pat repl hpat cs.length
      ((c :: cs).drop pat.length).length _
      (by simp only [List.length_drop, List.length_cons]; omega) (le_refl _)]
    rfl

theorem isStartOf_append_right (p u x : List Char) (h : isStartOf p u = true) :
    isStartOf p (u ++ x) = true := by
  obtain ⟨t, rfl⟩ := (isStartOf_iff _ _).1 h
  rw [isStartOf_iff]
  exact ⟨t ++ x, by simp⟩

theorem isStartOf_false_of_head_not_mem (pat : List Char) (hpat : pat ≠ [])
    (c : Char) (cs : List Char) (hc : c ∉ pat) :
    isStartOf pat (c :: cs) = false := by
  by_contra hcon
  rw [Bool.not_eq_false, isStartOf_iff] at hcon
  obtain ⟨t, ht⟩ := hcon
  cases pat with
  | nil => exact hpat rfl
  | cons p ps =>
    injection ht with h1 _
    exact hc (by rw [h1]; exact List.mem_cons_self p ps)

theorem isStartOf_append_not_mem (pat : List Char) (c : Char) (u v : List Char)
    (hc : c ∉ pat) (h : isStartOf pat (u ++ c :: v) = true) :
    ∃ w, u = pat ++ w := by
  obtain ⟨t, ht⟩ := (isStartOf_iff _ _).1 h
  by_cases hlen : pat.length ≤ u.length
  · refine ⟨u.drop pat.length, ?_⟩
    have htake := congrArg (List.take pat.length) ht
    rw [List.take_append_of_le_length hlen,
        List.take_append_of_le_length (le_refl _), List.take_length] at htake
    calc u = u.take pat.length ++ u.drop pat.length :=
          (List.take_append_drop _ _).symm
    _ = pat ++ u.drop pat.length := by rw [htake]
  · exfalso
    have hlt : u.length < pat.length := Nat.lt_of_not_le hlen
    have hdrop := congrArg (List.drop u.length) ht
    rw [List.drop_append_of_le_length (le_refl _),
        List.drop_append_of_le_length (le_of_lt hlt), List.drop_length,
        List.nil_append] at hdrop
    cases hpd : pat.drop u.length with
    | nil =>
      have := List.drop_eq_nil_iff.1 hpd
      omega
    | cons c2 rest =>
      rw [hpd] at hdrop
      injection hdrop with h1 _
      exact hc (List.drop_subset u.length pat
        (by rw [hpd, h1]; exact List.mem_cons_self c2 rest))

theorem pyReplace_of_disjoint (pat repl : List Char) (hpat : pat ≠ [])
    (s : List Char) (hdis : ∀ x ∈ s, x ∉ pat) :
    pyReplace pat repl s = s := by
  induction s with
  | nil => rfl
  | cons c cs ih =>
    rw [pyReplace_cons_no_match _ _ _ _
      (isStartOf_false_of_head_not_mem pat hpat c cs (hdis c (by simp)))]
    rw [ih (fun x hx => hdis x (List.mem_cons_of_mem c hx))]

theorem pyReplace_append_boundary (pat repl : List Char) (hpat : pat ≠ [])
    (c : Char) (hc : c ∉ pat) :
    ∀ n u v, u.length = n → pyReplace pat repl (u ++ c :: v) =
      pyReplace pat repl u ++ c :: pyReplace pat repl v := by
  intro n
  induction n using Nat.strong_induction_on with
  | _ n ih =>
    intro u v hn
    have hplen : 1 ≤ pat.length := by
      cases pat with
      | nil => exact absurd rfl hpat
      | cons _ _ => simp
    by_cases hs : isStartOf pat (u ++ c :: v) = true
    · obtain ⟨w, hw⟩ := isStartOf_append_not_mem pat c u v hc hs
      subst hw
      have hassoc : (pat ++ w) ++ c :: v = pat ++ (w ++ c :: v) :=
        List.append_assoc pat w (c :: v)
      rw [hassoc, pyReplace_head_match pat repl hpat _
          (isStartOf_self_append pat (w ++ c :: v)), List.drop_left]
      rw [pyReplace_head_match pat repl hpat (pat ++ w)
          (isStartOf_self_append pat w), List.drop_left]
      rw [ih w.length (by simp at hn; omega) w v rfl]
      rw [List.append_assoc]
    · rw [Bool.not_eq_true] at hs
      cases u with
      | nil =>
        rw [List.nil_append] at hs ⊢
        rw [pyReplace_cons_no_match _ _ _ _ hs]
        rfl
      | cons u0 u' =>
        have hsu : isStartOf pat (u0 :: u') = false := by
          by_contra hcon
          rw [Bool.not_eq_false] at hcon
          have := isStartOf_append_right pat (u0 :: u') (c :: v) hcon
          rw [this] at hs
          exact Bool.noConfusion hs
        have hstep : isStartOf pat (u0 :: (u' ++ c :: v)) = false := by
          simpa using hs
        rw [show (u0 :: u') ++ c :: v = u0 :: (u' ++ c :: v) from rfl]
        rw [pyReplace_cons_no_match _ _ _ _ hstep]
        rw [ih u'.length (by simp at hn; omega) u' v rfl]
        rw [pyReplace_cons_no_match _ _ _ _ hsu]
        rfl

theorem pyReplace_ws_left (pat repl w s : List Char) (hpat : pat ≠ [])
    (hdis : ∀ x ∈ w, x ∉ pat) :
    pyReplace pat repl (w ++ s) = w ++ pyReplace pat repl s := by
  induction w with
  | nil => rfl
  | cons c w' ih =>
    rw [List.cons_append, pyReplace_cons_no_match _ _ _ _
      (isStartOf_false_of_head_not_mem pat hpat c (w' ++ s) (hdis c (by simp)))]
    rw [ih (fun x hx => hdis x (List.mem_cons_of_mem c hx))]
    rfl

theorem pyReplace_ws_right (pat repl s w : List Char) (hpat : pat ≠ [])
    (hdis : ∀ x ∈ w, x ∉ pat) :
    pyReplace pat repl (s ++ w) = pyReplace pat repl s ++ w := by
  cases w with
  | nil => simp
  | cons c w' =>
    rw [pyReplace_append_boundary pat repl hpat c (hdis c (by simp))
      s.length s w' rfl]
    rw [pyReplace_of_disjoint pat repl hpat w'
      (fun x hx => hdis x (List.mem_cons_of_mem c hx))]

/-! ## Properties of the `str.strip` model and of whitespace skipping -/

theorem pyStrip_decomp (s : List Char) :
    s = stripPre s ++ pyStrip s ++ stripSuf s := by
  have h1 : s = s.takeWhile isPyWs ++ s.dropWhile isPyWs :=
    (List.takeWhile_append_dropWhile isPyWs s).symm
  have h2 : (s.dropWhile isPyWs).reverse =
      (s.dropWhile isPyWs).reverse.takeWhile isPyWs ++
        (s.dropWhile isPyWs).reverse.dropWhile isPyWs :=
    (List.takeWhile_append_dropWhile isPyWs _).symm
  have h3 : s.dropWhile isPyWs = pyStrip s ++ stripSuf s := by
    have h2r := congrArg List.reverse h2
    rw [List.reverse_reverse, List.reverse_append] at h2r
    exact h2r
  calc s = s.takeWhile isPyWs ++ s.dropWhile isPyWs := h1
  _ = stripPre s ++ (pyStrip s ++ stripSuf s) := by rw [← h3]; rfl
  _ = stripPre s ++ pyStrip s ++ stripSuf s := by rw [List.append_assoc]

theorem stripPre_ws (s : List Char) : ∀ c ∈ stripPre s, isPyWs c = true :=
  fun _ hc => List.mem_takeWhile_imp hc

theorem stripSuf_ws (s : List Char) : ∀ c ∈ stripSuf s, isPyWs c = true := by
  intro c hc
  rw [stripSuf, List.mem_reverse] at hc
  exact List.mem_takeWhile_imp hc

theorem pyStrip_eq_self (c b : Char) (mid : List Char)
    (hc : isPyWs c = false) (hb : isPyWs b = false) :
    pyStrip (c :: (mid ++ [b])) = c :: (mid ++ [b]) := by
  unfold pyStrip
  rw [List.dropWhile_cons_of_neg (by simp [hc])]
  rw [List.reverse_cons, List.reverse_append, List.reverse_cons,
    List.reverse_nil, List.nil_append]
  rw [show [b] ++ mid.reverse ++ [c] = b :: (mid.reverse ++ [c]) from rfl]
  rw [List.dropWhile_cons_of_neg (by simp [hb])]
  simp

theorem skipWs_ws_append (w s : List Char) (hW : ∀ c ∈ w, isJsonWs c = true) :
    skipWs (w ++ s) = skipWs s := by
  induction w with
  | nil => rfl
  | cons c w' ih =>
    rw [List.cons_append]
    show List.dropWhile isJsonWs (c :: (w' ++ s)) = _
    rw [List.dropWhile_cons_of_pos (by simp [hW c (by simp)])]
    exact ih (fun x hx => hW x (List.mem_cons_of_mem c hx))

theorem skipWs_append_cons (s w : List Char) (c : Char) (rest : List Char)
    (h : skipWs s = c :: rest) :
    skipWs (s ++ w) = c :: (rest ++ w) := by
  induction s with
  | nil => exact absurd h (by simp [skipWs])
  | cons x xs ih =>
    by_cases hx : isJsonWs x = true
    · rw [skipWs, List.dropWhile_cons_of_pos (by simp [hx])] at h
      rw [List.cons_append]
      show List.dropWhile isJsonWs (x :: (xs ++ w)) = _
      rw [List.dropWhile_cons_of_pos (by simp [hx])]
      exact ih h
    · rw [skipWs, List.dropWhile_cons_of_neg (by simp [hx])] at h
      injection h with h1 h2
      rw [List.cons_append]
      show List.dropWhile isJsonWs (x :: (xs ++ w)) = _
      rw [List.dropWhile_cons_of_neg (by simp [hx]), h1, h2]

theorem skipWs_eq_nil_iff (s : List Char) :
    skipWs s = [] ↔ ∀ c ∈ s, isJsonWs c = true := by
  rw [skipWs, List.dropWhile_eq_nil_iff]

theorem skipWs_append_nil (s w : List Char) (h : skipWs s = [])
    (hW : ∀ c ∈ w, isJsonWs c = true) :
    skipWs (s ++ w) = [] := by
  rw [skipWs_eq_nil_iff] at h ⊢
  intro c hc
  rcases List.mem_append.1 hc with hcs | hcw
  · exact h c hcs
  · exact hW c hcw

theorem nonWsCount_append (a b : List Char) :
    nonWsCount (a ++ b) = nonWsCount a + nonWsCount b := by
  rw [nonWsCount, nonWsCount, nonWsCount, List.filter_append, List.length_append]

theorem nonWsCount_ws (w : List Char) (hW : ∀ c ∈ w, isJsonWs c = true) :
    nonWsCount w = 0 := by
  rw [nonWsCount, List.length_eq_zero, List.filter_eq_nil_iff]
  intro c hc
  simp [hW c hc]

/-! ## Appending trailing whitespace does not change a parse

These lemmas culminate in `parseVal_append_ws`: parsing `s ++ w` for
whitespace `w` gives the same outcome as parsing `s`, with `w` appended to
the remaining input on success. -/

theorem ws_char_cases (c : Char) (h : isJsonWs c = true) :
    c = ' ' ∨ c = '\t' ∨ c = '\n' ∨ c = '\r' := by
  rw [isJsonWs] at h
  simp only [Bool.or_eq_true, beq_iff_eq] at h
  tauto

theorem ws_ne_char (c d : Char) (h : isJsonWs c = true)
    (hd : isJsonWs d = false) : c ≠ d := by
  intro he
  rw [he, hd] at h
  exact Bool.noConfusion h

theorem ws_not_digit (c : Char) (h : isJsonWs c = true) : c.isDigit = false := by
  rcases ws_char_cases c h with h | h | h | h <;> subst h <;> rfl

theorem ws_escChar_none (e : Char) (h : isJsonWs e = true) : escChar e = none := by
  rcases ws_char_cases e h with h | h | h | h <;> subst h <;> rfl

theorem expectWord_append (kw : List Char) (v : Json) (w : List Char)
    (hW : ∀ c ∈ w, isJsonWs c = true) (hkw : ∀ x ∈ kw, isJsonWs x = false) :
    ∀ r, expectWord kw v (r ++ w) =
      match expectWord kw v r with
      | some (v2, rest) => some (v2, rest ++ w)
      | none => none := by
  induction kw with
  | nil => intro r; rfl
  | cons k kw' ih =>
    intro r
    cases r with
    | nil =>
      rw [List.nil_append]
      cases w with
      | nil => rfl
      | cons wc w' =>
        have hne : (k == wc) = false := by
          rw [beq_eq_false_iff_ne]
          exact (ws_ne_char wc k (hW wc (by simp)) (hkw k (by simp))).symm
        simp only [expectWord, hne, Bool.false_eq_true, if_false]
    | cons rc r' =>
      show expectWord (k :: kw') v (rc :: (r' ++ w)) = _
      by_cases hk : (k == rc) = true
      · simp only [expectWord, hk, if_true]
        exact ih (fun x hx => hkw x (List.mem_cons_of_mem k hx)) r'
      · rw [Bool.not_eq_true] at hk
        simp only [expectWord, hk, Bool.false_eq_true, if_false]

theorem parseStringBody_quote (r : List Char) :
    parseStringBody ('"' :: r) = some ([], r) := by
  conv_lhs => unfold parseStringBody
  rw [if_pos rfl]

theorem parseStringBody_bs_nil : parseStringBody ['\\'] = none := by
  conv_lhs => unfold parseStringBody
  rfl

theorem parseStringBody_bs (e : Char) (r : List Char) :
    parseStringBody ('\\' :: e :: r) =
      (match escChar e with
      | none => none
      | some ec =>
        match parseStringBody r with
        | none => none
        | some (cs, r3) => some (ec :: cs, r3)) := by
  conv_lhs => unfold parseStringBody
  rfl

theorem parseStringBody_other (c : Char) (r : List Char)
    (hq : ¬ c = '"') (hb : ¬ c = '\\') :
    parseStringBody (c :: r) =
      (if c.toNat < 32 then none
      else
        match parseStringBody r with
        | none => none
        | some (cs, r3) => some (c :: cs, r3)) := by
  conv_lhs => unfold parseStringBody
  rw [if_neg hq, if_neg hb]

theorem parseStringBody_ws_none (w : List Char)
    (hW : ∀ c ∈ w, isJsonWs c = true) :
    parseStringBody w = none := by
  induction w with
  | nil => rfl
  | cons c w' ih =>
    rw [parseStringBody_other c w'
      (ws_ne_char c '"' (hW c (by simp)) (by rfl))
      (ws_ne_char c '\\' (hW c (by simp)) (by rfl))]
    by_cases hc : c.toNat < 32
    · rw [if_pos hc]
    · rw [if_neg hc]
      rw [ih (fun x hx => hW x (List.mem_cons_of_mem c hx))]

theorem parseStringBody_append (w : List Char)
    (hW : ∀ c ∈ w, isJsonWs c = true) :
    ∀ n s, s.length = n → parseStringBody (s ++ w) =
      (match parseStringBody s with
      | some (cs, r) => some (cs, r ++ w)
      | none => none) := by
  intro n
  induction n using Nat.strong_induction_on with
  | _ n ih =>
    intro s hn
    cases s with
    | nil =>
      rw [List.nil_append, parseStringBody_ws_none w hW]
      rfl
    | cons c r =>
      show parseStringBody (c :: (r ++ w)) = _
      by_cases hq : c = '"'
      · subst hq
        rw [parseStringBody_quote, parseStringBody_quote]
      · by_cases hb : c = '\\'
        · subst hb
          cases r with
          | nil =>
            rw [List.nil_append, parseStringBody_bs_nil]
            cases w with
            | nil => exact parseStringBody_bs_nil
            | cons e w' =>
              rw [parseStringBody_bs e w', ws_escChar_none e (hW e (by simp))]
          | cons e r2 =>
            rw [List.cons_append, parseStringBody_bs e (r2 ++ w),
              parseStringBody_bs e r2]
            cases hesc : escChar e with
            | none => rfl
            | some ec =>
              rw [ih r2.length (by simp at hn; omega) r2 rfl]
              cases hps : parseStringBody r2 with
              | none => rfl
              | some p =>
                cases p with
                | mk cs r3 => rfl
        · rw [parseStringBody_other c (r ++ w) hq hb,
            parseStringBody_other c r hq hb]
          by_cases hctl : c.toNat < 32
          · rw [if_pos hctl, if_pos hctl]
          · rw [if_neg hctl, if_neg hctl]
            rw [ih r.length (by simp at hn; omega) r rfl]
            cases hps : parseStringBody r with
            | none => rfl
            | some p =>
              cases p with
              | mk cs r3 => rfl

theorem takeWhile_append_not (p : Char → Bool) (w : List Char)
    (hw : ∀ c ∈ w, p c = false) :
    ∀ r, (r ++ w).takeWhile p = r.takeWhile p := by
  intro r
  induction r with
  | nil =>
    rw [List.nil_append]
    cases w with
    | nil => rfl
    | cons c w' =>
      rw [List.takeWhile_cons_of_neg (by simp [hw c (by simp)])]
      rfl
  | cons x r' ih =>
    rw [List.cons_append]
    by_cases hx : p x = true
    · rw [List.takeWhile_cons_of_pos hx, List.takeWhile_cons_of_pos hx, ih]
    · rw [Bool.not_eq_true] at hx
      rw [List.takeWhile_cons_of_neg (by simp [hx]),
        List.takeWhile_cons_of_neg (by simp [hx])]

theorem dropWhile_append_not (p : Char → Bool) (w : List Char)
    (hw : ∀ c ∈ w, p c = false) :
    ∀ r, (r ++ w).dropWhile p = r.dropWhile p ++ w := by
  intro r
  induction r with
  | nil =>
    rw [List.nil_append]
    cases w with
    | nil => rfl
    | cons c w' =>
      rw [List.dropWhile_cons_of_neg (by simp [hw c (by simp)])]
      rfl
  | cons x r' ih =>
    rw [List.cons_append]
    by_cases hx : p x = true
    · rw [List.dropWhile_cons_of_pos hx, List.dropWhile_cons_of_pos hx, ih]
    · rw [Bool.not_eq_true] at hx
      rw [List.dropWhile_cons_of_neg (by simp [hx]),
        List.dropWhile_cons_of_neg (by simp [hx])]
      rfl

theorem ws_not_numpunct (c : Char) (h : isJsonWs c = true) :
    ¬ (c = '.' || c = 'e' || c = 'E') = true := by
  rcases ws_char_cases c h with h | h | h | h <;> subst h <;> decide

theorem parseDigits_append (w : List Char) (hW : ∀ c ∈ w, isJsonWs c = true) :
    ∀ s, parseDigits (s ++ w) =
      (match parseDigits s with
      | some (n, rest) => some (n, rest ++ w)
      | none => none) := by
  have hwd : ∀ c ∈ w, Char.isDigit c = false :=
    fun c hc => ws_not_digit c (hW c hc)
  intro s
  cases s with
  | nil =>
    rw [List.nil_append]
    cases w with
    | nil => rfl
    | cons c w' =>
      show parseDigits (c :: w') = none
      simp only [parseDigits]
      rw [if_neg (by simp [ws_not_digit c (hW c (by simp))])]
  | cons c r =>
    rw [List.cons_append]
    simp only [parseDigits]
    by_cases hd : c.isDigit = true
    · rw [if_pos hd, if_pos hd]
      rw [takeWhile_append_not Char.isDigit w hwd r,
        dropWhile_append_not Char.isDigit w hwd r]
      by_cases hz : (c == '0' && !(r.takeWhile Char.isDigit).isEmpty) = true
      · rw [if_pos hz, if_pos hz]
      · rw [if_neg hz, if_neg hz]
        cases hrest : r.dropWhile Char.isDigit with
        | nil =>
          rw [List.nil_append]
          cases w with
          | nil => rfl
          | cons d w' =>
            show (if (d = '.' || d = 'e' || d = 'E') = true then none
              else some (digitsToNat (c.toNat - 48) (r.takeWhile Char.isDigit),
                d :: w')) =
              some (digitsToNat (c.toNat - 48) (r.takeWhile Char.isDigit), d :: w')
            rw [if_neg (ws_not_numpunct d (hW d (by simp)))]
        | cons d rest2 =>
          rw [List.cons_append]
          show (if (d = '.' || d = 'e' || d = 'E') = true then none
            else some (digitsToNat (c.toNat - 48) (r.takeWhile Char.isDigit),
              d :: (rest2 ++ w))) =
            (match (if (d = '.' || d = 'e' || d = 'E') = true then none
              else some (digitsToNat (c.toNat - 48) (r.takeWhile Char.isDigit),
                d :: rest2) : Option (Nat × List Char)) with
            | some (n, rest) => some (n, rest ++ w)
            | none => none)
          by_cases hp : (d = '.' || d = 'e' || d = 'E') = true
          · rw [if_pos hp, if_pos hp]
          · rw [if_neg hp, if_neg hp]
            rfl
    · rw [if_neg hd, if_neg hd]

theorem parseNumber_append (w : List Char) (hW : ∀ c ∈ w, isJsonWs c = true) :
    ∀ s, parseNumber (s ++ w) =
      (match parseNumber s with
      | some (v, rest) => some (v, rest ++ w)
      | none => none) := by
  intro s
  cases s with
  | nil =>
    rw [List.nil_append]
    cases w with
    | nil => rfl
    | cons c w' =>
      show parseNumber (c :: w') = none
      simp only [parseNumber]
      rw [if_neg (ws_ne_char c '-' (hW c (by simp)) (by rfl))]
      have : parseDigits (c :: w') = none := by
        simp only [parseDigits]
        rw [if_neg (by simp [ws_not_digit c (hW c (by simp))])]
      rw [this]
  | cons c r =>
    rw [List.cons_append]
    simp only [parseNumber]
    by_cases hm : c = '-'
    · rw [if_pos hm, if_pos hm]
      rw [parseDigits_append w hW r]
      cases parseDigits r with
      | none => rfl
      | some p => cases p with | mk n rest => rfl
    · rw [if_neg hm, if_neg hm]
      rw [show c :: (r ++ w) = (c :: r) ++ w from rfl, parseDigits_append w hW (c :: r)]
      cases parseDigits (c :: r) with
      | none => rfl
      | some p => cases p with | mk n rest => rfl

/-! ### Step equations for the fuel parser -/

theorem parseVal_step_nil (f : Nat) (x : List Char) (h : skipWs x = []) :
    parseVal (f + 1) x = .fail := by
  conv_lhs => unfold parseVal
  rw [h]

theorem parseVal_step_cons (f : Nat) (x : List Char) (c : Char) (r : List Char)
    (h : skipWs x = c :: r) :
    parseVal (f + 1) x =
      (if c = 'n' then
        match expectWord ['u', 'l', 'l'] .null r with
        | some (v, rest) => .ok v rest
        | none => .fail
      else if c = 't' then
        match expectWord ['r', 'u', 'e'] (.bool true) r with
        | some (v, rest) => .ok v rest
        | none => .fail
      else if c = 'f' then
        match expectWord ['a', 'l', 's', 'e'] (.bool false) r with
        | some (v, rest) => .ok v rest
        | none => .fail
      else if c = '"' then
        match parseStringBody r with
        | some (cs, rest) => .ok (.str (String.mk cs)) rest
        | none => .fail
      else if c = '[' then
        match skipWs r with
        | [] => parseArrLoop f [] r
        | d :: rest =>
          if d = ']' then .ok (.arr []) rest else parseArrLoop f [] r
      else if c = '{' then
        match skipWs r with
        | [] => parseObjLoop f [] r
        | d :: rest =>
          if d = '}' then .ok (.obj []) rest else parseObjLoop f [] r
      else
        match parseNumber (c :: r) with
        | some (v, rest) => .ok v rest
        | none => .fail) := by
  conv_lhs => unfold parseVal
  rw [h]

theorem parseArrLoop_step (f : Nat) (acc : List Json) (s : List Char) :
    parseArrLoop (f + 1) acc s =
      (match parseVal f s with
      | .ok v r =>
        match skipWs r with
        | [] => .fail
        | d :: r2 =>
          if d = ',' then parseArrLoop f (acc ++ [v]) r2
          else if d = ']' then .ok (.arr (acc ++ [v])) r2
          else .fail
      | .fail => .fail
      | .out => .out) := by
  conv_lhs => unfold parseArrLoop

theorem parseObjLoop_step_nil (f : Nat) (acc : List (String × Json))
    (x : List Char) (h : skipWs x = []) :
    parseObjLoop (f + 1) acc x = .fail := by
  conv_lhs => unfold parseObjLoop
  rw [h]

theorem parseObjLoop_step_cons (f : Nat) (acc : List (String × Json))
    (x : List Char) (c : Char) (r : List Char) (h : skipWs x = c :: r) :
    parseObjLoop (f + 1) acc x =
      (if c = '"' then
        match parseStringBody r with
        | none => .fail
        | some (kcs, r2) =>
          match skipWs r2 with
          | [] => .fail
          | d :: r3 =>
            if d = ':' then
              match parseVal f r3 with
              | .ok v r4 =>
                match skipWs r4 with
                | [] => .fail
                | d2 :: r5 =>
                  if d2 = ',' then
                    parseObjLoop f (objInsert acc (String.mk kcs) v) r5
                  else if d2 = '}' then
                    .ok (.obj (objInsert acc (String.mk kcs) v)) r5
                  else .fail
              | .fail => .fail
              | .out => .out
            else .fail
      else .fail) := by
  conv_lhs => unfold parseObjLoop
  rw [h]

/-- Appending all-whitespace input does not change a parse beyond carrying
the whitespace in the remaining input.  This is what makes the code-fence
padding of the quiz claim invisible to the decoder. -/
theorem parse_append_ws (w : List Char) (hW : ∀ c ∈ w, isJsonWs c = true) :
    ∀ f, (∀ s, parseVal f (s ++ w) = presApp w (parseVal f s)) ∧
      (∀ acc s, parseArrLoop f acc (s ++ w) = presApp w (parseArrLoop f acc s)) ∧
      (∀ acc s, parseObjLoop f acc (s ++ w) = presApp w (parseObjLoop f acc s)) := by
  intro f
  induction f with
  | zero => exact ⟨fun s => rfl, fun acc s => rfl, fun acc s => rfl⟩
  | succ f ih =>
    obtain ⟨ihv, iha, iho⟩ := ih
    refine ⟨?_, ?_, ?_⟩
    · intro s
      cases hss : skipWs s with
      | nil =>
        rw [parseVal_step_nil f (s ++ w) (skipWs_append_nil s w hss hW),
          parseVal_step_nil f s hss]
        rfl
      | cons c r =>
        rw [parseVal_step_cons f (s ++ w) c (r ++ w) (skipWs_append_cons s w c r hss),
          parseVal_step_cons f s c r hss]
        by_cases hn : c = 'n'
        · rw [if_pos hn, if_pos hn,
            expectWord_append ['u', 'l', 'l'] Json.null w hW (by decide) r]
          cases expectWord ['u', 'l', 'l'] Json.null r with
          | none => rfl
          | some p => cases p with | mk v rest => rfl
        · rw [if_neg hn, if_neg hn]
          by_cases ht : c = 't'
          · rw [if_pos ht, if_pos ht,
              expectWord_append ['r', 'u', 'e'] (Json.bool true) w hW (by decide) r]
            cases expectWord ['r', 'u', 'e'] (Json.bool true) r with
            | none => rfl
            | some p => cases p with | mk v rest => rfl
          · rw [if_neg ht, if_neg ht]
            by_cases hf : c = 'f'
            · rw [if_pos hf, if_pos hf,
                expectWord_append ['a', 'l', 's', 'e'] (Json.bool false) w hW
                  (by decide) r]
              cases expectWord ['a', 'l', 's', 'e'] (Json.bool false) r with
              | none => rfl
              | some p => cases p with | mk v rest => rfl
            · rw [if_neg hf, if_neg hf]
              by_cases hq : c = '"'
              · rw [if_pos hq, if_pos hq,
                  parseStringBody_append w hW r.length r rfl]
                cases parseStringBody r with
                | none => rfl
                | some p => cases p with | mk cs rest => rfl
              · rw [if_neg hq, if_neg hq]
                by_cases ha : c = '['
                · rw [if_pos ha, if_pos ha]
                  cases hsr : skipWs r with
                  | nil =>
                    rw [skipWs_append_nil r w hsr hW]
                    exact iha [] r
                  | cons d rest =>
                    rw [skipWs_append_cons r w d rest hsr]
                    show (if d = ']' then PRes.ok (Json.arr []) (rest ++ w)
                      else parseArrLoop f [] (r ++ w)) =
                      presApp w (if d = ']' then PRes.ok (Json.arr []) rest
                        else parseArrLoop f [] r)
                    by_cases hd : d = ']'
                    · rw [if_pos hd, if_pos hd]
                      rfl
                    · rw [if_neg hd, if_neg hd]
                      exact iha [] r
                · rw [if_neg ha, if_neg ha]
                  by_cases ho : c = '{'
                  · rw [if_pos ho, if_pos ho]
                    cases hsr : skipWs r with
                    | nil =>
                      rw [skipWs_append_nil r w hsr hW]
                      exact iho [] r
                    | cons d rest =>
                      rw [skipWs_append_cons r w d rest hsr]
                      show (if d = '}' then PRes.ok (Json.obj []) (rest ++ w)
                        else parseObjLoop f [] (r ++ w)) =
                        presApp w (if d = '}' then PRes.ok (Json.obj []) rest
                          else parseObjLoop f [] r)
                      by_cases hd : d = '}'
                      · rw [if_pos hd, if_pos hd]
                        rfl
                      · rw [if_neg hd, if_neg hd]
                        exact iho [] r
                  · rw [if_neg ho, if_neg ho]
                    rw [show c :: (r ++ w) = (c :: r) ++ w from rfl,
                      parseNumber_append w hW (c :: r)]
                    cases parseNumber (c :: r) with
                    | none => rfl
                    | some p => cases p with | mk v rest => rfl
    · intro acc s
      rw [parseArrLoop_step f acc (s ++ w), parseArrLoop_step f acc s, ihv s]
      cases hpv : parseVal f s with
      | fail => rfl
      | out => rfl
      | ok v r =>
        show (match skipWs (r ++ w) with
          | [] => PRes.fail
          | d :: r2 =>
            if d = ',' then parseArrLoop f (acc ++ [v]) r2
            else if d = ']' then .ok (.arr (acc ++ [v])) r2
            else .fail) =
          presApp w (match skipWs r with
          | [] => PRes.fail
          | d :: r2 =>
            if d = ',' then parseArrLoop f (acc ++ [v]) r2
            else if d = ']' then .ok (.arr (acc ++ [v])) r2
            else .fail)
        cases hsr : skipWs r with
        | nil =>
          rw [skipWs_append_nil r w hsr hW]
          rfl
        | cons d r2 =>
          rw [skipWs_append_cons r w d r2 hsr]
          show (if d = ',' then parseArrLoop f (acc ++ [v]) (r2 ++ w)
            else if d = ']' then PRes.ok (Json.arr (acc ++ [v])) (r2 ++ w)
            else PRes.fail) =
            presApp w (if d = ',' then parseArrLoop f (acc ++ [v]) r2
              else if d = ']' then PRes.ok (Json.arr (acc ++ [v])) r2
              else PRes.fail)
          by_cases hd : d = ','
          · rw [if_pos hd, if_pos hd]
            exact iha (acc ++ [v]) r2
          · rw [if_neg hd, if_neg hd]
            by_cases he : d = ']'
            · rw [if_pos he, if_pos he]
              rfl
            · rw [if_neg he, if_neg he]
              rfl
    · intro acc s
      cases hss : skipWs s with
      | nil =>
        rw [parseObjLoop_step_nil f acc (s ++ w) (skipWs_append_nil s w hss hW),
          parseObjLoop_step_nil f acc s hss]
        rfl
      | cons c r =>
        rw [parseObjLoop_step_cons f acc (s ++ w) c (r ++ w)
            (skipWs_append_cons s w c r hss),
          parseObjLoop_step_cons f acc s c r hss]
        by_cases hc : c = '"'
        · rw [if_pos hc, if_pos hc, parseStringBody_append w hW r.length r rfl]
          cases hps : parseStringBody r with
          | none => rfl
          | some p =>
            cases p with
            | mk kcs r2 =>
              show (match skipWs (r2 ++ w) with
                | [] => PRes.fail
                | d :: r3 =>
                  if d = ':' then
                    match parseVal f r3 with
                    | .ok v r4 =>
                      match skipWs r4 with
                      | [] => .fail
                      | d2 :: r5 =>
                        if d2 = ',' then
                          parseObjLoop f (objInsert acc (String.mk kcs) v) r5
                        else if d2 = '}' then
                          .ok (.obj (objInsert acc (String.mk kcs) v)) r5
                        else .fail
                    | .fail => .fail
                    | .out => .out
                  else .fail) =
                presApp w (match skipWs r2 with
                | [] => PRes.fail
                | d :: r3 =>
                  if d = ':' then
                    match parseVal f r3 with
                    | .ok v r4 =>
                      match skipWs r4 with
                      | [] => .fail
                      | d2 :: r5 =>
                        if d2 = ',' then
                          parseObjLoop f (objInsert acc (String.mk kcs) v) r5
                        else if d2 = '}' then
                          .ok (.obj (objInsert acc (String.mk kcs) v)) r5
                        else .fail
                    | .fail => .fail
                    | .out => .out
                  else .fail)
              cases hs2 : skipWs r2 with
              | nil =>
                rw [skipWs_append_nil r2 w hs2 hW]
                rfl
              | cons d r3 =>
                rw [skipWs_append_cons r2 w d r3 hs2]
                show (if d = ':' then
                    match parseVal f (r3 ++ w) with
                    | .ok v r4 =>
                      match skipWs r4 with
                      | [] => PRes.fail
                      | d2 :: r5 =>
                        if d2 = ',' then
                          parseObjLoop f (objInsert acc (String.mk kcs) v) r5
                        else if d2 = '}' then
                          .ok (.obj (objInsert acc (String.mk kcs) v)) r5
                        else .fail
                    | .fail => .fail
                    | .out => .out
                  else PRes.fail) =
                  presApp w (if d = ':' then
                    match parseVal f r3 with
                    | .ok v r4 =>
                      match skipWs r4 with
                      | [] => PRes.fail
                      | d2 :: r5 =>
                        if d2 = ',' then
                          parseObjLoop f (objInsert acc (String.mk kcs) v) r5
                        else if d2 = '}' then
                          .ok (.obj (objInsert acc (String.mk kcs) v)) r5
                        else .fail
                    | .fail => .fail
                    | .out => .out
                  else PRes.fail)
                by_cases hd : d = ':'
                · rw [if_pos hd, if_pos hd, ihv r3]
                  cases hpv : parseVal f r3 with
                  | fail => rfl
                  | out => rfl
                  | ok v r4 =>
                    show (match skipWs (r4 ++ w) with
                      | [] => PRes.fail
                      | d2 :: r5 =>
                        if d2 = ',' then
                          parseObjLoop f (objInsert acc (String.mk kcs) v) r5
                        else if d2 = '}' then
                          .ok (.obj (objInsert acc (String.mk kcs) v)) r5
                        else .fail) =
                      presApp w (match skipWs r4 with
                      | [] => PRes.fail
                      | d2 :: r5 =>
                        if d2 = ',' then
                          parseObjLoop f (objInsert acc (String.mk kcs) v) r5
                        else if d2 = '}' then
                          .ok (.obj (objInsert acc (String.mk kcs) v)) r5
                        else .fail)
                    cases hs4 : skipWs r4 with
                    | nil =>
                      rw [skipWs_append_nil r4 w hs4 hW]
                      rfl
                    | cons d2 r5 =>
                      rw [skipWs_append_cons r4 w d2 r5 hs4]
                      show (if d2 = ',' then
                          parseObjLoop f (objInsert acc (String.mk kcs) v) (r5 ++ w)
                        else if d2 = '}' then
                          PRes.ok (Json.obj (objInsert acc (String.mk kcs) v)) (r5 ++ w)
                        else PRes.fail) =
                        presApp w (if d2 = ',' then
                          parseObjLoop f (objInsert acc (String.mk kcs) v) r5
                        else if d2 = '}' then
                          PRes.ok (Json.obj (objInsert acc (String.mk kcs) v)) r5
                        else PRes.fail)
                      by_cases h2 : d2 = ','
                      · rw [if_pos h2, if_pos h2]
                        exact iho (objInsert acc (String.mk kcs) v) r5
                      · rw [if_neg h2, if_neg h2]
                        by_cases h3 : d2 = '}'
                        · rw [if_pos h3, if_pos h3]
                          rfl
                        · rw [if_neg h3, if_neg h3]
                          rfl
                · rw [if_neg hd, if_neg hd]
                  rfl
        · rw [if_neg hc, if_neg hc]
          rfl

theorem parseVal_ws_front (w s : List Char) (hW : ∀ c ∈ w, isJsonWs c = true) :
    ∀ f, parseVal f (w ++ s) = parseVal f s := by
  intro f
  cases f with
  | zero => rfl
  | succ f =>
    cases hss : skipWs s with
    | nil =>
      rw [parseVal_step_nil f (w ++ s)
          (by rw [skipWs_ws_append w s hW]; exact hss),
        parseVal_step_nil f s hss]
    | cons c r =>
      rw [parseVal_step_cons f (w ++ s) c r
          (by rw [skipWs_ws_append w s hW]; exact hss),
        parseVal_step_cons f s c r hss]

theorem not_mem_of_ws (pat : List Char) (hpat : ∀ x ∈ pat, isJsonWs x = false)
    (c : Char) (hc : isJsonWs c = true) : c ∉ pat := by
  intro hm
  rw [hpat c hm] at hc
  exact Bool.noConfusion hc

theorem not_mem_of_pyws (pat : List Char) (hpat : ∀ x ∈ pat, isPyWs x = false)
    (c : Char) (hc : isPyWs c = true) : c ∉ pat := by
  intro hm
  rw [hpat c hm] at hc
  exact Bool.noConfusion hc

theorem string_data_append (a b : String) : (a ++ b).data = a.data ++ b.data := by
  cases a
  cases b
  rfl

/-- Cleaning the fenced response leaves exactly the cleaned bare response
surrounded by the fence newlines and the whitespace edges of the body
(which survive because line 209 strips a string whose ends are backticks). -/
theorem clean_quiz_text_fenceWrap (t : String)
    (hpre : ∀ c ∈ stripPre t.data, isJsonWs c = true)
    (hsuf : ∀ c ∈ stripSuf t.data, isJsonWs c = true) :
    clean_quiz_text (fenceWrap t) =
      ('\n' :: stripPre t.data) ++
        (clean_quiz_text t ++ (stripSuf t.data ++ ['\n'])) := by
  have hJne : fenceJson ≠ [] := by decide
  have hBne : fenceBare ≠ [] := by decide
  have hnlJ : ('\n' : Char) ∉ fenceJson := by decide
  have hnlB : ('\n' : Char) ∉ fenceBare := by decide
  have hdata : (fenceWrap t).data =
      fenceJson ++ ('\n' :: (t.data ++ ('\n' :: fenceBare))) := by
    show (("```json\n" ++ t) ++ "\n```").data = _
    rw [string_data_append, string_data_append]
    rw [show ("```json\n" : String).data = fenceJson ++ ['\n'] from rfl,
      show ("\n```" : String).data = '\n' :: fenceBare from rfl]
    simp [List.append_assoc]
  have hshape : (fenceWrap t).data =
      '`' :: ((("``json".data ++ ['\n']) ++ t.data ++ ['\n', '`', '`']) ++ ['`']) := by
    rw [hdata]
    rw [show fenceJson = '`' :: ("``json".data : List Char) from rfl,
      show fenceBare = ['`', '`', '`'] from rfl]
    simp [List.append_assoc]
  have hstrip : pyStrip (fenceWrap t).data = (fenceWrap t).data := by
    rw [hshape]
    exact pyStrip_eq_self '`' '`' _ rfl rfl
  have hw1J : ∀ c ∈ stripPre t.data, c ∉ fenceJson :=
    fun c hc => not_mem_of_ws fenceJson (by decide) c (hpre c hc)
  have hw2J : ∀ c ∈ stripSuf t.data, c ∉ fenceJson :=
    fun c hc => not_mem_of_ws fenceJson (by decide) c (hsuf c hc)
  have hw1B : ∀ c ∈ stripPre t.data, c ∉ fenceBare :=
    fun c hc => not_mem_of_ws fenceBare (by decide) c (hpre c hc)
  have hw2B : ∀ c ∈ stripSuf t.data, c ∉ fenceBare :=
    fun c hc => not_mem_of_ws fenceBare (by decide) c (hsuf c hc)
  show pyReplace fenceBare [] (pyReplace fenceJson []
    (pyStrip (fenceWrap t).data)) = _
  rw [hstrip, hdata]
  rw [pyReplace_head_match fenceJson [] hJne _
    (isStartOf_self_append fenceJson _)]
  rw [List.drop_left, List.nil_append]
  rw [pyReplace_cons_no_match _ _ _ _
    (isStartOf_false_of_head_not_mem fenceJson hJne '\n' _ hnlJ)]
  rw [pyReplace_append_boundary fenceJson [] hJne '\n' hnlJ
    t.data.length t.data fenceBare rfl]
  rw [show pyReplace fenceJson [] fenceBare = fenceBare from by decide]
  rw [pyReplace_cons_no_match _ _ _ _
    (isStartOf_false_of_head_not_mem fenceBare hBne '\n' _ hnlB)]
  rw [pyReplace_append_boundary fenceBare [] hBne '\n' hnlB
    (pyReplace fenceJson [] t.data).length (pyReplace fenceJson [] t.data)
    fenceBare rfl]
  rw [show pyReplace fenceBare [] fenceBare = ([] : List Char) from by decide]
  have hR1t : pyReplace fenceJson [] t.data =
      stripPre t.data ++
        (pyReplace fenceJson [] (pyStrip t.data) ++ stripSuf t.data) := by
    conv_lhs => rw [pyStrip_decomp t.data]
    rw [List.append_assoc]
    rw [pyReplace_ws_left fenceJson [] _ _ hJne hw1J]
    rw [pyReplace_ws_right fenceJson [] _ _ hJne hw2J]
  rw [hR1t]
  rw [pyReplace_ws_left fenceBare [] _ _ hBne hw1B]
  rw [pyReplace_ws_right fenceBare [] _ _ hBne hw2B]
  show '\n' :: ((stripPre t.data ++
      (clean_quiz_text t ++ stripSuf t.data)) ++ ('\n' :: [])) = _
  simp [List.append_assoc]

/-- Claim C6 (confirmed): wrapping a quiz body in the Markdown fence
markers does not change the decode outcome.  The hypotheses say that the
whitespace at the edges of the body is JSON whitespace — every valid JSON
body satisfies them (Python would otherwise reject the bare body too);
they exclude only exotic strip-only characters such as vertical tab. -/
theorem C6_fence_wrapping (t : String)
    (hpre : ∀ c ∈ stripPre t.data, isJsonWs c = true)
    (hsuf : ∀ c ∈ stripSuf t.data, isJsonWs c = true) :
    quiz_decode_step (fenceWrap t) = quiz_decode_step t := by
  have hW : ∀ c ∈ ('\n' :: stripPre t.data), isJsonWs c = true := by
    intro c hc
    rcases List.mem_cons.1 hc with h | h
    · subst h; rfl
    · exact hpre c h
  have hW2 : ∀ c ∈ (stripSuf t.data ++ ['\n']), isJsonWs c = true := by
    intro c hc
    rcases List.mem_append.1 hc with h | h
    · exact hsuf c h
    · simp at h; subst h; rfl
  have hclean := clean_quiz_text_fenceWrap t hpre hsuf
  show json_loads_list (clean_quiz_text (fenceWrap t)) =
    json_loads_list (clean_quiz_text t)
  rw [hclean]
  have hfuel : jsonFuel (('\n' :: stripPre t.data) ++
      (clean_quiz_text t ++ (stripSuf t.data ++ ['\n']))) =
      jsonFuel (clean_quiz_text t) := by
    rw [jsonFuel, jsonFuel, nonWsCount_append, nonWsCount_append,
      nonWsCount_ws _ hW, nonWsCount_ws _ hW2]
    omega
  simp only [json_loads_list]
  rw [hfuel]
  rw [parseVal_ws_front ('\n' :: stripPre t.data)
    (clean_quiz_text t ++ (stripSuf t.data ++ ['\n'])) hW _]
  rw [(parse_append_ws (stripSuf t.data ++ ['\n']) hW2
    (jsonFuel (clean_quiz_text t))).1 (clean_quiz_text t)]
  cases hp : parseVal (jsonFuel (clean_quiz_text t)) (clean_quiz_text t) with
  | fail => rfl
  | out => rfl
  | ok v rest =>
    show (if (skipWs (rest ++ (stripSuf t.data ++ ['\n']))).isEmpty = true
        then some v else none) =
      (if (skipWs rest).isEmpty = true then some v else none)
    by_cases hre : skipWs rest = []
    · rw [skipWs_append_nil rest _ hre hW2, hre]
    · cases hsk : skipWs rest with
      | nil => exact absurd hsk hre
      | cons c cs =>
        rw [skipWs_append_cons rest _ c cs hsk]
        rfl

/-- Witness for `C6_fence_wrapping` at a concrete quiz body. -/
theorem C6_fence_wrapping_witness :
    quiz_decode_step (fenceWrap quizGoodText) = quiz_decode_step quizGoodText :=
  C6_fence_wrapping quizGoodText (by decide) (by decide)

/-- Claim C7 (confirmed): for a wrong option key `k` of a quiz record, the
loop of lines 242-252 first tries `incorrect_<k upper>`, then
`incorrect_<k lower>` in the explanation mapping; when the upper-case key
is present its value is displayed, otherwise the lower-case value when
present, and when neither is present the block for `k` is omitted from the
displayed blocks without any error. -/
theorem C7_explanation_lookup (opts expl : List (String × Json)) (ans k : String)
    (label : Json) (hopt : (k, label) ∈ opts) (hwrong : k ≠ ans) :
    (pyObjMem expl ("incorrect_" ++ pyUpper k) = true →
      explanationLookup expl k = pyObjGet expl ("incorrect_" ++ pyUpper k)) ∧
    (pyObjMem expl ("incorrect_" ++ pyUpper k) = false →
      pyObjMem expl ("incorrect_" ++ pyLower k) = true →
      explanationLookup expl k = pyObjGet expl ("incorrect_" ++ pyLower k)) ∧
    (pyObjMem expl ("incorrect_" ++ pyUpper k) = false →
      pyObjMem expl ("incorrect_" ++ pyLower k) = false →
      explanationLookup expl k = none ∧
        ∀ v, (k, v) ∉ wrongOptionBlocks opts ans expl) ∧
    (∀ v, explanationLookup expl k = some v →
      (k, v) ∈ wrongOptionBlocks opts ans expl) := by
  refine ⟨?_, ?_, ?_, ?_⟩
  · intro hup
    simp [explanationLookup, hup]
  · intro hup hlo
    simp [explanationLookup, hup, hlo]
  · intro hup hlo
    have hnone : explanationLookup expl k = none := by
      simp [explanationLookup, hup, hlo]
    refine ⟨hnone, ?_⟩
    intro v hv
    rw [wrongOptionBlocks, List.mem_filterMap] at hv
    obtain ⟨p, hp, hfp⟩ := hv
    by_cases hpa : p.1 = ans
    · rw [if_pos hpa] at hfp
      exact Option.noConfusion hfp
    · rw [if_neg hpa, Option.map_eq_some'] at hfp
      obtain ⟨w, hw, heq⟩ := hfp
      have hk : p.1 = k := congrArg Prod.fst heq
      rw [hk, hnone] at hw
      exact Option.noConfusion hw
  · intro v hv
    rw [wrongOptionBlocks, List.mem_filterMap]
    refine ⟨(k, label), hopt, ?_⟩
    rw [if_neg hwrong, hv]
    rfl

/-- Witness for `C7_explanation_lookup`: option "A" is wrong (answer "B"),
its upper-case key is present and is the one displayed. -/
theorem C7_explanation_lookup_witness :
    explanationLookup
      [("correct", Json.str "cb"), ("incorrect_A", Json.str "ea"),
        ("incorrect_c", Json.str "ec")] "A" =
      pyObjGet
        [("correct", Json.str "cb"), ("incorrect_A", Json.str "ea"),
          ("incorrect_c", Json.str "ec")] ("incorrect_" ++ pyUpper "A") :=
  (C7_explanation_lookup
    [("A", Json.str "x"), ("B", Json.str "y"), ("C", Json.str "z")]
    [("correct", Json.str "cb"), ("incorrect_A", Json.str "ea"),
      ("incorrect_c", Json.str "ec")]
    "B" "A" (Json.str "x") (List.mem_cons_self _ _) (by decide)).1 (by decide)

/-- Witness for `C5_split_error` at a marker-free text and at a text with
two markers. -/
theorem C5_split_error_witness :
    splitRefactorResponse "plain text" = .error "plain text" ∧
    splitRefactorResponse "a### 优化解读b### 优化解读c" =
      .error "a### 优化解读b### 优化解读c" :=
  ⟨C5_split_error "plain text" (Or.inl (by decide)),
   C5_split_error "a### 优化解读b### 优化解读c" (Or.inr (by decide))⟩

/-- On a parsed object, the five-key check of line 220 computes exactly
key membership of every required key, and cannot raise. -/
theorem pyAllKeysIn_obj (ks : List String) (ms : List (String × Json)) :
    pyAllKeysIn ks (Json.obj ms) = .ok (ks.all (fun k => pyObjMem ms k)) := by
  induction ks with
  | nil => rfl
  | cons k ks ih =>
    cases h : pyObjMem ms k with
    | false =>
      have hc : pyContains k (Json.obj ms) = .ok false := by
        simp only [pyContains, pyObjMem] at h ⊢
        rw [h]
      simp only [pyAllKeysIn, hc, List.all_cons, h, Bool.false_and]
    | true =>
      have hc : pyContains k (Json.obj ms) = .ok true := by
        simp only [pyContains, pyObjMem] at h ⊢
        rw [h]
      simp only [pyAllKeysIn, hc, ih, List.all_cons, h, Bool.true_and]

/-- Claim C8 (confirmed): for every prompt, the gateway either returns the
capability text unmodified with no error banner, or, when the capability
raises, returns no text and shows one banner embedding the error detail;
`generate_content` is a total function of the capability outcome, so no
exception escapes its boundary. -/
theorem C8_gateway_contract (cap : Except String String) :
    (∃ t, cap = .ok t ∧ generate_content cap = (some t, [])) ∨
    (∃ e, cap = .error e ∧ generate_content cap = (none, [genFailHead ++ e])) := by
  cases cap with
  | ok t => exact .inl ⟨t, rfl, rfl⟩
  | error e => exact .inr ⟨e, rfl, rfl⟩

/-- Claim C1 counterexample: with a quiz record in the session and the
capability failing with a rate limit, the start/next handler leaves the
session state `none` — not the record that was there before (line 179
clears it before the generation call), refuting the claimed equality of
the states before and after the failed action. -/
theorem C1_counterexample :
    tab3_start_next (.error "rate limit") = none ∧
    (none : Option Json) ≠ some c1PriorRecord := ⟨rfl, by simp⟩

/-- Claim C1 as amended: when `generate()` fails during start/next, no
uncaught fault is raised (the handler is a total function whose failure
branch is reached) and the session quiz state afterwards is always `none`:
the previous record is discarded, not preserved. -/
theorem C1_amended_state_cleared (e : String) :
    tab3_start_next (.error e) = none := rfl

/-- Claim C10 (confirmed): in all three flows a generation `Success` whose
text is empty produces exactly the outcome of a failure as far as the flow
result is concerned: nothing is rendered, no split and no JSON decode
happens (the tab-2 and tab-3 results are the failure results), and no quiz
record is created. -/
theorem C10_empty_success_like_failure (e code : String) :
    tab1_handler (.ok "") = tab1_handler (.error e) ∧
    tab2_handler code (.ok "") = tab2_handler code (.error e) ∧
    tab3_start_next (.ok "") = tab3_start_next (.error e) ∧
    tab1_handler (.ok "") = [] ∧
    tab3_start_next (.ok "") = none := by
  refine ⟨rfl, ?_, rfl, rfl, rfl⟩
  by_cases h : pyStrip code.data = [] <;>
    simp [tab2_handler, h, generate_content]

/-- Claim C9 (confirmed): the clean-up of line 209 removes fence markers
anywhere in the text, including inside JSON string values: a response
whose `scene` value contains a literal fence decodes to a record whose
`scene` differs from the literal content written in the JSON. -/
theorem C9_fence_removed_inside_values :
    quiz_decode_step c9Text = some (Json.obj c9Members) ∧
    pyObjGet c9Members "scene" = some (.str "Use  here") ∧
    ("Use  here" : String) ≠ "Use ``` here" := ⟨rfl, rfl, by decide⟩

/-- Claim C2 counterexample: a response with all five keys but
`answer = "D"` decodes successfully, reaches the question rendering, and
its answer key is not among the option keys — the claimed invariant fails
because the decode validates key presence only. -/
theorem C2_counterexample :
    quiz_decode_step c2Text = some (Json.obj c2Members) ∧
    tab3_render (some (Json.obj c2Members)) = .rendered c2Members ∧
    pyObjGet c2Members "answer" = some (.str "D") ∧
    pyObjGet c2Members "options" = some (.obj c2Options) ∧
    (c2Options.map Prod.fst).contains "D" = false :=
  ⟨rfl, rfl, rfl, rfl, by decide⟩

/-- Claim C2 as amended: every quiz value that reaches the question
rendering has all five required top-level keys and a dictionary under
`options`; membership of the answer in the option keys is not validated
anywhere in the decode path. -/
theorem C2_amended_five_keys (qd : Option Json) (ms : List (String × Json))
    (h : tab3_render qd = .rendered ms) :
    requiredKeys.all (fun k => pyObjMem ms k) = true ∧
    ∃ os, pyObjGet ms "options" = some (.obj os) := by
  unfold tab3_render at h
  split at h
  · exact absurd h (by simp)
  · split at h
    · split at h
      · exact absurd h (by simp)
      · exact absurd h (by simp)
      · rename_i q _ _ hall
        split at h
        · rename_i ms2 heq
          split at h
          · rename_i os hopt
            simp only [RenderResult.rendered.injEq] at h
            subst h
            rw [pyAllKeysIn_obj] at hall
            simp only [Except.ok.injEq] at hall
            exact ⟨hall, os, hopt⟩
          · exact absurd h (by simp)
          · exact absurd h (by simp)
        · exact absurd h (by simp)
    · exact absurd h (by simp)

/-- Witness for `C2_amended_five_keys` at the well-formed response. -/
theorem C2_amended_five_keys_witness :
    requiredKeys.all (fun k => pyObjMem quizGoodMembers k) = true ∧
    ∃ os, pyObjGet quizGoodMembers "options" = some (.obj os) :=
  C2_amended_five_keys (some (Json.obj quizGoodMembers)) quizGoodMembers rfl

/-- Claim C3 counterexample: the spec scenario itself (valid JSON missing
the `explanation` key) leaves the partially populated parsed object in the
session state after the start/next action — it is retained, with only the
incomplete-structure notice shown, refuting the claim that no partial
record is produced or retained. -/
theorem C3_counterexample :
    tab3_start_next (.ok c3Text) = some (Json.obj c3Members) ∧
    pyObjMem c3Members "explanation" = false ∧
    tab3_start_next (.ok c3Text) ≠ none ∧
    tab3_render (some (Json.obj c3Members)) = .incompleteError := by
  refine ⟨rfl, by decide, ?_, rfl⟩
  intro h
  rw [show tab3_start_next (.ok c3Text) = some (Json.obj c3Members) from rfl] at h
  exact Option.noConfusion h

/-- Claim C3 as amended: when the decode of a quiz response yields an
object missing a required key, the action retains that partial object in
the session state; the rendering then shows the incomplete-structure error
(and renders no quiz) when the object is non-empty, and silently shows
nothing when it is empty (a falsy value such as `\x7b\x7d` skips line 216
entirely).  Only a JSON syntax error resets the state to `None`. -/
theorem C3_amended_partial_retained (text : String) (ms : List (String × Json))
    (k : String) (hdec : quiz_decode_step text = some (Json.obj ms))
    (hk : k ∈ requiredKeys) (hmiss : pyObjMem ms k = false) :
    tab3_start_next (.ok text) = some (Json.obj ms) ∧
    tab3_render (some (Json.obj ms)) =
      (if ms.isEmpty then RenderResult.nothing else .incompleteError) := by
  have htext : ¬ text = "" := by
    intro h
    subst h
    exact Option.noConfusion (hdec.symm.trans (show quiz_decode_step "" = none from rfl))
  constructor
  · show (match (generate_content (.ok text)).1 with
      | none => none
      | some t => if t = "" then none else quiz_decode_step t) = _
    simpa [generate_content, htext] using hdec
  · show (if jsonTruthy (Json.obj ms) then _ else _) = _
    cases hemp : ms.isEmpty with
    | true =>
      have : jsonTruthy (Json.obj ms) = false := by
        simp [jsonTruthy, hemp]
      simp [this, hemp]
    | false =>
      have htr : jsonTruthy (Json.obj ms) = true := by
        simp [jsonTruthy, hemp]
      have hall : requiredKeys.all (fun k2 => pyObjMem ms k2) = false := by
        rw [List.all_eq_false]
        exact ⟨k, hk, by simp [hmiss]⟩
      rw [if_pos htr, pyAllKeysIn_obj, hall]
      simp [hemp]

/-- Witness for `C3_amended_partial_retained` at the missing-`explanation`
response. -/
theorem C3_amended_partial_retained_witness :
    tab3_start_next (.ok c3Text) = some (Json.obj c3Members) ∧
    tab3_render (some (Json.obj c3Members)) =
      (if c3Members.isEmpty then RenderResult.nothing else .incompleteError) :=
  C3_amended_partial_retained c3Text c3Members "explanation" rfl
    (by decide) (by decide)

end JavaAiTeacher
